import Mathlib

/-!
Shallow embedding of the image-processing pipeline in
`src/image_processing.py`.

Conventions of the embedding:
* A raster buffer (`numpy` array of shape `height × width × channels`,
  dtype `uint8`) is an `Img`: three dimension fields and a total pixel
  function; reads outside the valid coordinate range are junk and are
  never produced by the operations below at valid output coordinates.
  A 2-D grayscale array is represented as `channels = 1` (the code's
  `np.newaxis` / squeeze round-trip keeps pixel content unchanged).
* `float32` arithmetic on small integer values is modelled as exact
  rational (`ℚ`) or integer (`ℤ`) arithmetic; `astype(np.uint8)` after a
  `np.clip(·, 0, 255)` truncates a nonnegative value, i.e. takes a floor.
* `cv2.cvtColor` (BGR ↔ HSV) is an external library routine that is not
  part of this repository; it is abstracted as a pair of conversion
  functions (`HsvConv`) that the pipeline receives as a parameter.
  `cv2.rotate` is modelled by its documented transpose/reflect semantics
  (the spec: a transpose/reflect operation that swaps width and height
  for 90/270).
* Exceptions become `Except` values: the only failure the executor can
  raise is the unknown-step error (`ValueError(f"Unknown step: ...")`).
-/

namespace ImageProc

/-- Raster buffer: `height × width × channels` grid of 8-bit values.
`pix y x ch` reads row `y`, column `x`, channel `ch`. -/
structure Img where
  height : ℕ
  width : ℕ
  channels : ℕ
  pix : ℕ → ℕ → ℕ → ℕ

/-- Every pixel value at a valid coordinate fits in 8 bits (`np.uint8`). -/
def Img.Valid (a : Img) : Prop :=
  ∀ y < a.height, ∀ x < a.width, ∀ ch < a.channels, a.pix y x ch ≤ 255

instance (a : Img) : Decidable a.Valid := by
  unfold Img.Valid; infer_instance

/-- Images with the same shape and the same pixel value at every valid
coordinate. -/
def Img.PixEq (a b : Img) : Prop :=
  a.height = b.height ∧ a.width = b.width ∧ a.channels = b.channels ∧
    ∀ y < a.height, ∀ x < a.width, ∀ ch < a.channels, a.pix y x ch = b.pix y x ch

instance (a b : Img) : Decidable (a.PixEq b) := by
  unfold Img.PixEq; infer_instance

/-- Images with the same shape whose pixel values differ by at most `tol`
levels at every valid coordinate. -/
def Img.CloseTo (a b : Img) (tol : ℕ) : Prop :=
  a.height = b.height ∧ a.width = b.width ∧ a.channels = b.channels ∧
    ∀ y < a.height, ∀ x < a.width, ∀ ch < a.channels,
      (a.pix y x ch : ℤ) - b.pix y x ch ≤ (tol : ℤ) ∧
        (b.pix y x ch : ℤ) - a.pix y x ch ≤ (tol : ℤ)

instance (a b : Img) (t : ℕ) : Decidable (a.CloseTo b t) := by
  unfold Img.CloseTo; infer_instance

/-- The buffer `out` is exactly the `hgt × wdt` sub-rectangle of `src`
whose top-left corner sits at row `offY`, column `offX` of `src`. -/
def Img.IsSubrect (out src : Img) (offY offX hgt wdt : ℕ) : Prop :=
  out.height = hgt ∧ out.width = wdt ∧ out.channels = src.channels ∧
    ∀ i < out.height, ∀ j < out.width, ∀ ch < out.channels,
      out.pix i j ch = src.pix (offY + i) (offX + j) ch

instance (o s : Img) (a b c d : ℕ) : Decidable (o.IsSubrect s a b c d) := by
  unfold Img.IsSubrect; infer_instance

/-- Model of `np.clip(v, 0, 255).astype(np.uint8)` applied to an exact
rational value: clamp into `[0, 255]`, then truncate.  After the clamp
the value is nonnegative, so truncation toward zero is the floor. -/
def clamp255 (q : ℚ) : ℕ := (⌊min 255 (max 0 q)⌋).toNat

/-- Embedding of `BrightnessStep.process`:
`np.clip(image.astype(np.float32) * factor, 0, 255).astype(np.uint8)`. -/
def brightnessProcess (img : Img) (factor : ℚ) : Img :=
  { height := img.height, width := img.width, channels := img.channels,
    pix := fun y x ch => clamp255 ((img.pix y x ch : ℚ) * factor) }

/-- Edge-replicated read of `np.pad(image[:, :, ch], pad, mode='edge')`
at padded coordinate `(i, j)`: the original row index `i - pad` is
clamped into `[0, height - 1]` (truncated ℕ subtraction is the lower
clamp, `min` the upper one), and likewise for the column. -/
def Img.paddedPix (img : Img) (pad ch i j : ℕ) : ℕ :=
  img.pix (min (img.height - 1) (i - pad)) (min (img.width - 1) (j - pad)) ch

/-- Model of the code's integral image
`cumsum[1:, 1:] = np.cumsum(np.cumsum(padded, axis=0), axis=1)` (with its
leading row and column of zeros): `cumsum2 f y x` is the sum of `f` over
all `(i, j)` with `i < y` and `j < x`.  Values are taken in `ℤ` (the code
stores them in floats, idealized as exact). -/
def cumsum2 (f : ℕ → ℕ → ℕ) (y x : ℕ) : ℤ :=
  ∑ i ∈ Finset.range y, ∑ j ∈ Finset.range x, (f i j : ℤ)

/-- Embedding of the code's vectorized window-sum query
`cumsum[Y2, X2] - cumsum[Y1, X2] - cumsum[Y2, X1] + cumsum[Y1, X1]` with
`Y1 = y`, `X1 = x`, `Y2 = y + k`, `X2 = x + k` over the padded channel. -/
def boxSums (img : Img) (k ch y x : ℕ) : ℤ :=
  cumsum2 (img.paddedPix (k / 2) ch) (y + k) (x + k)
    - cumsum2 (img.paddedPix (k / 2) ch) y (x + k)
    - cumsum2 (img.paddedPix (k / 2) ch) (y + k) x
    + cumsum2 (img.paddedPix (k / 2) ch) y x

/-- Embedding of the silent even-size coercion
`if kernel_size % 2 == 0: kernel_size += 1`. -/
def oddify (k : ℕ) : ℕ := if k % 2 = 0 then k + 1 else k

/-- Core of `BoxBlurStep.process` after the kernel size has been fixed:
per channel, the window sum obtained from the integral image, divided by
`kernel_size * kernel_size` and converted back with
`np.clip(·, 0, 255).astype(np.uint8)`. -/
def boxBlurCore (img : Img) (k : ℕ) : Img :=
  { height := img.height, width := img.width, channels := img.channels,
    pix := fun y x ch => min 255 ((boxSums img k ch y x).toNat / (k * k)) }

/-- Embedding of `BoxBlurStep.process`: coerce an even `kernel_size` to
the next odd value, then run the integral-image box blur.  The function
is total: no input raises an error. -/
def boxBlurProcess (img : Img) (kernelSize : ℕ) : Img :=
  boxBlurCore img (oddify kernelSize)

/-- Direct window sum of the padded channel over the `k × k` window whose
top-left padded coordinate is `(y, x)`. -/
def windowSum (img : Img) (k ch y x : ℕ) : ℕ :=
  ∑ dy ∈ Finset.range k, ∑ dx ∈ Finset.range k, img.paddedPix (k / 2) ch (y + dy) (x + dx)

/-- Brute-force windowed average, written from the spec: each output
pixel is the mean of the `kernel_size × kernel_size` square neighborhood
of the corresponding input pixel, independently per channel, with
edge-replication padding; per the spec's contract an even `kernel_size`
is first incremented to the next odd value. -/
def boxBlurBrute (img : Img) (kernelSize : ℕ) : Img :=
  let k := oddify kernelSize
  let pad := k / 2
  { height := img.height, width := img.width, channels := img.channels,
    pix := fun y x ch =>
      (∑ dy ∈ Finset.range k, ∑ dx ∈ Finset.range k,
          img.pix (min (img.height - 1) (y + dy - pad))
            (min (img.width - 1) (x + dx - pad)) ch) / (k * k) }

/-- Embedding of `UnsharpMaskStep.process`: it composes the held
`BoxBlurStep` (`blurred = self.blur_step.process(image, kernel_size=blur_size)`),
computes `diff = image.astype(np.float32) - blurred.astype(np.float32)`
(signed, higher precision, modelled in ℚ), then
`np.clip(image + strength * diff, 0, 255).astype(np.uint8)`. -/
def unsharpProcess (img : Img) (strength : ℚ) (blurSize : ℕ) : Img :=
  let blurred := boxBlurProcess img blurSize
  { height := img.height, width := img.width, channels := img.channels,
    pix := fun y x ch =>
      clamp255 ((img.pix y x ch : ℚ)
        + strength * ((img.pix y x ch : ℚ) - (blurred.pix y x ch : ℚ))) }

/-- Unsharp-mask formula written from the spec's words:
`clamp(image + strength × (image − BoxBlur(image, blur_size)), 0, 255)`,
with the difference taken in a signed higher-precision representation. -/
def unsharpSpecFormula (img : Img) (strength : ℚ) (blurSize : ℕ) : Img :=
  { height := img.height, width := img.width, channels := img.channels,
    pix := fun y x ch =>
      clamp255 ((img.pix y x ch : ℚ)
        + strength * ((img.pix y x ch : ℚ)
          - ((boxBlurProcess img blurSize).pix y x ch : ℚ))) }

/-- Model of Python slice-stop normalization on an axis of length `n`
for a nonnegative slice start: a negative stop counts from the end of
the axis, a stop past the end is clamped to `n`. -/
def sliceStop (b : ℤ) (n : ℕ) : ℕ :=
  if b < 0 then ((n : ℤ) + b).toNat else min b.toNat n

/-- Embedding of `CropStep.process`:
`x = max(0, min(x, w - 1))`, `y = max(0, min(y, h - 1))`,
`x2 = min(x + width, w)`, `y2 = min(y + height, h)`, then
`image[y:y2, x:x2].copy()` with Python slice semantics (in particular a
negative stop index counts from the end of the axis). -/
def cropProcess (img : Img) (x y width height : ℤ) : Img :=
  let x1 := max 0 (min x ((img.width : ℤ) - 1))
  let y1 := max 0 (min y ((img.height : ℤ) - 1))
  let x2 := min (x1 + width) (img.width : ℤ)
  let y2 := min (y1 + height) (img.height : ℤ)
  let xs := x1.toNat
  let ys := y1.toNat
  let xe := sliceStop x2 img.width
  let ye := sliceStop y2 img.height
  { height := ye - ys, width := xe - xs, channels := img.channels,
    pix := fun i j ch => img.pix (ys + i) (xs + j) ch }

/-- Rotation by 90° clockwise, the documented semantics of
`cv2.rotate(image, cv2.ROTATE_90_CLOCKWISE)`: width and height swap and
`out[i][j] = in[h - 1 - j][i]`. -/
def rotate90cw (img : Img) : Img :=
  { height := img.width, width := img.height, channels := img.channels,
    pix := fun i j ch => img.pix (img.height - 1 - j) i ch }

/-- Rotation by 180°, the documented semantics of
`cv2.rotate(image, cv2.ROTATE_180)`. -/
def rotate180 (img : Img) : Img :=
  { height := img.height, width := img.width, channels := img.channels,
    pix := fun i j ch => img.pix (img.height - 1 - i) (img.width - 1 - j) ch }

/-- Rotation by 90° counter-clockwise, the documented semantics of
`cv2.rotate(image, cv2.ROTATE_90_COUNTERCLOCKWISE)`. -/
def rotate90ccw (img : Img) : Img :=
  { height := img.width, width := img.height, channels := img.channels,
    pix := fun i j ch => img.pix j (img.width - 1 - i) ch }

/-- Model of Python `round(a / b) * 1` for integers `0 ≤ a`, `0 < b`:
round half to even (Python 3 banker's rounding), using floor division
and remainder (`Int.ediv`/`Int.emod` agree with Python `//` and `%` for
a positive divisor). -/
def pyRoundHalfEvenDiv (a b : ℤ) : ℤ :=
  if 2 * (a % b) < b then a / b
  else if b < 2 * (a % b) then a / b + 1
  else if (a / b) % 2 = 0 then a / b
  else a / b + 1

/-- Embedding of `RotateStep.process`: normalize the angle modulo 360
(Python `%` on a positive modulus agrees with `Int.emod`, which is the
meaning of `%` on `ℤ` here); dispatch 0/90/180/270; any other normalized
angle is rounded to the nearest multiple of 90 with Python `round` and
re-dispatched through the same function. -/
def rotateProcess (img : Img) (angle : ℤ) : Img :=
  if h0 : angle % 360 = 0 then img
  else if h90 : angle % 360 = 90 then rotate90cw img
  else if h180 : angle % 360 = 180 then rotate180 img
  else if h270 : angle % 360 = 270 then rotate90ccw img
  else rotateProcess img (pyRoundHalfEvenDiv (angle % 360) 90 * 90)
termination_by (angle % 360 % 90).toNat
decreasing_by
  have hzero : pyRoundHalfEvenDiv (angle % 360) 90 * 90 % 360 % 90 = 0 := by
    rw [Int.emod_emod_of_dvd _ (by norm_num : (90 : ℤ) ∣ 360)]
    exact Int.mul_emod_left _ _
  have hpos : 0 < angle % 360 % 90 := by
    have ha0 : 0 ≤ angle % 360 := Int.emod_nonneg _ (by norm_num)
    omega
  rw [hzero]
  omega

/-- Abstraction of the external `cv2.cvtColor` BGR ↔ HSV conversion pair
used by `SaturationStep` and `HueStep`.  The conversion is implemented by
OpenCV, not by this repository, so the pipeline development is
parameterized over it. -/
structure HsvConv where
  toHSV : Img → Img
  fromHSV : Img → Img

/-- Trivial conversion pair, used only to instantiate universally
quantified pipeline statements at a concrete value. -/
def idConv : HsvConv := ⟨id, id⟩

/-- Scaling of the saturation channel inside `SaturationStep.process`:
`hsv[:, :, 1] = hsv[:, :, 1] * factor`, values above 255 set to 255,
then `astype(np.uint8)` (truncation of a nonnegative float). -/
def satScale (factor : ℚ) (hsv : Img) : Img :=
  { height := hsv.height, width := hsv.width, channels := hsv.channels,
    pix := fun y x ch =>
      if ch = 1 then (⌊min 255 ((hsv.pix y x ch : ℚ) * factor)⌋).toNat
      else hsv.pix y x ch }

/-- Embedding of `SaturationStep.process`: convert to HSV, scale the
saturation channel, convert back. -/
def saturationProcess (conv : HsvConv) (img : Img) (factor : ℚ) : Img :=
  conv.fromHSV (satScale factor (conv.toHSV img))

/-- Reduction of a rational modulo 180 into `[0, 180)`. -/
def hueWrap (q : ℚ) : ℚ := q - 180 * ⌊q / 180⌋

/-- Shift of the hue channel inside `HueStep.process`:
`hsv[:, :, 0] = (hsv[:, :, 0] + shift/2) % 180`, then `astype(np.uint8)`. -/
def hueShiftImg (shift : ℤ) (hsv : Img) : Img :=
  { height := hsv.height, width := hsv.width, channels := hsv.channels,
    pix := fun y x ch =>
      if ch = 0 then (⌊hueWrap ((hsv.pix y x ch : ℚ) + (shift : ℚ) / 2)⌋).toNat
      else hsv.pix y x ch }

/-- Embedding of `HueStep.process`: convert to HSV, shift the hue
channel, convert back. -/
def hueProcess (conv : HsvConv) (img : Img) (shift : ℤ) : Img :=
  conv.fromHSV (hueShiftImg shift (conv.toHSV img))

/-- Parameter map of a pipeline step invocation (the JSON `params`
object).  A missing entry makes the step use its declared default, which
is how Python keyword defaults behave under `step.process(result, **params)`. -/
structure Params where
  factor : Option ℚ := none
  shift : Option ℤ := none
  kernel_size : Option ℕ := none
  strength : Option ℚ := none
  blur_size : Option ℕ := none
  x : Option ℤ := none
  y : Option ℤ := none
  width : Option ℤ := none
  height : Option ℤ := none
  angle : Option ℤ := none

/-- One entry of the pipeline list: `{'step': name, 'params': {...}}`;
`step_config.get('params', {})` makes the parameter map default to
empty. -/
structure Invocation where
  step : String
  params : Params := {}

/-- The only error the executor raises:
`ValueError(f"Unknown step: {step_name}")` (the spec's `UnknownStepError`). -/
inductive PipelineError where
  | unknownStep (name : String)

/-- The seven step names registered in
`ImageProcessingPipeline.__init__`. -/
def registeredSteps : List String :=
  ["brightness", "saturation", "hue", "box_blur", "unsharp_mask", "crop", "rotate"]

/-- Dispatch of one invocation inside `process_image`: look the name up
in `available_steps` and call the step's `process` with the supplied
parameters (missing ones replaced by the declared defaults); an
unregistered name raises the unknown-step error.  No parameter is
checked against the schema's `min_value`/`max_value` bounds. -/
def runStep (conv : HsvConv) (img : Img) (inv : Invocation) : Except PipelineError Img :=
  if inv.step = "brightness" then
    .ok (brightnessProcess img (inv.params.factor.getD 1))
  else if inv.step = "saturation" then
    .ok (saturationProcess conv img (inv.params.factor.getD 1))
  else if inv.step = "hue" then
    .ok (hueProcess conv img (inv.params.shift.getD 0))
  else if inv.step = "box_blur" then
    .ok (boxBlurProcess img (inv.params.kernel_size.getD 5))
  else if inv.step = "unsharp_mask" then
    .ok (unsharpProcess img (inv.params.strength.getD 1) (inv.params.blur_size.getD 5))
  else if inv.step = "crop" then
    .ok (cropProcess img (inv.params.x.getD 0) (inv.params.y.getD 0)
      (inv.params.width.getD 100) (inv.params.height.getD 100))
  else if inv.step = "rotate" then
    .ok (rotateProcess img (inv.params.angle.getD 0))
  else .error (.unknownStep inv.step)

/-- Embedding of `ImageProcessingPipeline.process_image`: thread the
working buffer through the invocations in order; the first unknown step
aborts the run with an error and no partial result. -/
def processImage (conv : HsvConv) (img : Img) : List Invocation → Except PipelineError Img
  | [] => .ok img
  | inv :: rest =>
    match runStep conv img inv with
    | .ok next => processImage conv next rest
    | .error e => .error e

/-- Concrete 3 × 3 single-channel test image. -/
def tImgA : Img := ⟨3, 3, 1, fun y x _ => y * 40 + x * 25⟩

/-- Concrete 4 × 4 single-channel test image. -/
def cImg4 : Img := ⟨4, 4, 1, fun y x _ => y * 4 + x⟩

/-- Concrete 100 × 100 three-channel test image. -/
def cImg100 : Img := ⟨100, 100, 3, fun y x ch => (y + 2 * x + ch) % 256⟩

/-- Concrete 4 × 5 three-channel image that is uniform within each
channel. -/
def tImgU : Img := ⟨4, 5, 3, fun _ _ ch => 17 + ch⟩

end ImageProc

namespace ImageProc

/-- Difference of two row sums of the same function is the sum over the
missing block of columns. -/
theorem rowsub (g : ℕ → ℕ) (x k : ℕ) :
    (∑ j ∈ Finset.range (x + k), (g j : ℤ)) - ∑ j ∈ Finset.range x, (g j : ℤ)
      = ∑ j ∈ Finset.range k, (g (x + j) : ℤ) := by
  induction k with
  | zero => simp
  | succ k ih =>
    rw [show x + (k + 1) = (x + k) + 1 from rfl, Finset.sum_range_succ,
      Finset.sum_range_succ]
    linarith [ih]

/-- Peeling the last row off the prefix-sum table. -/
theorem cumsum2_succ_row (f : ℕ → ℕ → ℕ) (n x : ℕ) :
    cumsum2 f (n + 1) x = cumsum2 f n x + ∑ j ∈ Finset.range x, (f n j : ℤ) := by
  unfold cumsum2
  exact Finset.sum_range_succ _ _

/-- Difference of two prefix sums with the same column bound is the sum
over the missing block of rows. -/
theorem colsub (f : ℕ → ℕ → ℕ) (y k x : ℕ) :
    cumsum2 f (y + k) x - cumsum2 f y x
      = ∑ i ∈ Finset.range k, ∑ j ∈ Finset.range x, (f (y + i) j : ℤ) := by
  induction k with
  | zero => simp
  | succ k ih =>
    rw [show y + (k + 1) = (y + k) + 1 from rfl, cumsum2_succ_row,
      Finset.sum_range_succ]
    linarith [ih]

/-- The inclusion–exclusion query on the integral image evaluates to the
direct window sum: correctness of the summed-area-table trick. -/
theorem boxSums_eq_window (img : Img) (k ch y x : ℕ) :
    boxSums img k ch y x = (windowSum img k ch y x : ℤ) := by
  have h1 := colsub (img.paddedPix (k / 2) ch) y k (x + k)
  have h2 := colsub (img.paddedPix (k / 2) ch) y k x
  have h4 : (∑ i ∈ Finset.range k, ∑ j ∈ Finset.range (x + k),
        (img.paddedPix (k / 2) ch (y + i) j : ℤ))
      - ∑ i ∈ Finset.range k, ∑ j ∈ Finset.range x,
        (img.paddedPix (k / 2) ch (y + i) j : ℤ)
      = ∑ i ∈ Finset.range k, ∑ j ∈ Finset.range k,
        (img.paddedPix (k / 2) ch (y + i) (x + j) : ℤ) := by
    rw [← Finset.sum_sub_distrib]
    exact Finset.sum_congr rfl fun i _ => rowsub (img.paddedPix (k / 2) ch (y + i)) x k
  unfold boxSums windowSum
  push_cast
  linarith [h1, h2, h4]

/-- Every edge-replicated read is a valid-coordinate read of the source,
so it is bounded by 255 on a valid image. -/
theorem paddedPix_le (img : Img) (pad ch i j : ℕ) (hv : img.Valid)
    (hh : 0 < img.height) (hw : 0 < img.width) (hch : ch < img.channels) :
    img.paddedPix pad ch i j ≤ 255 := by
  unfold Img.paddedPix
  exact hv _ (lt_of_le_of_lt (min_le_left _ _) (by omega))
    _ (lt_of_le_of_lt (min_le_left _ _) (by omega)) _ hch

/-- The window sum of a valid image is at most `k * k * 255`. -/
theorem windowSum_le (img : Img) (k ch y x : ℕ) (hv : img.Valid)
    (hh : 0 < img.height) (hw : 0 < img.width) (hch : ch < img.channels) :
    windowSum img k ch y x ≤ k * k * 255 := by
  unfold windowSum
  calc ∑ dy ∈ Finset.range k, ∑ dx ∈ Finset.range k,
        img.paddedPix (k / 2) ch (y + dy) (x + dx)
      ≤ ∑ _dy ∈ Finset.range k, ∑ _dx ∈ Finset.range k, 255 :=
        Finset.sum_le_sum fun dy _ => Finset.sum_le_sum fun dx _ =>
          paddedPix_le img (k / 2) ch (y + dy) (x + dx) hv hh hw hch
    _ = k * k * 255 := by
        simp [Finset.sum_const, Finset.card_range]
        ring

/-- Pixel form of the integral-image blur core: the direct window mean,
clipped to 255. -/
theorem boxBlurCore_pix (img : Img) (k y x ch : ℕ) :
    (boxBlurCore img k).pix y x ch = min 255 (windowSum img k ch y x / (k * k)) := by
  show min 255 ((boxSums img k ch y x).toNat / (k * k)) = _
  rw [boxSums_eq_window]
  simp

/-- C1: For every raster buffer and every kernel_size in [3, 31], the
integral-image box blur (`BoxBlurStep.process`) produces an output with
the same height, width and channel count as the input, in which each
pixel equals, within ±1 level, the mean of the kernel neighborhood
computed by a brute-force windowed average with edge-replication
padding, independently per channel. -/
theorem boxblur_refines_bruteforce (img : Img) (k : ℕ) (hv : img.Valid)
    (h3 : 3 ≤ k) (_h31 : k ≤ 31) :
    (boxBlurProcess img k).height = img.height ∧
    (boxBlurProcess img k).width = img.width ∧
    (boxBlurProcess img k).channels = img.channels ∧
    (boxBlurProcess img k).CloseTo (boxBlurBrute img k) 1 := by
  refine ⟨rfl, rfl, rfl, ?_⟩
  unfold Img.CloseTo
  refine ⟨rfl, rfl, rfl, ?_⟩
  intro y hy x hx ch hch
  have hy2 : y < img.height := hy
  have hx2 : x < img.width := hx
  have hch2 : ch < img.channels := hch
  have hb : (boxBlurBrute img k).pix y x ch
      = windowSum img (oddify k) ch y x / (oddify k * oddify k) := rfl
  have hc : (boxBlurProcess img k).pix y x ch
      = min 255 (windowSum img (oddify k) ch y x / (oddify k * oddify k)) :=
    boxBlurCore_pix img (oddify k) y x ch
  have hkpos : 0 < oddify k * oddify k := by
    unfold oddify; split <;> positivity
  have hle : windowSum img (oddify k) ch y x / (oddify k * oddify k) ≤ 255 := by
    have h1 := windowSum_le img (oddify k) ch y x hv (by omega) (by omega) hch2
    have h2 := Nat.div_le_div_right (c := oddify k * oddify k) h1
    have h3 : oddify k * oddify k * 255 / (oddify k * oddify k) = 255 :=
      Nat.mul_div_cancel_left 255 hkpos
    omega
  rw [hc, hb, min_eq_right hle]
  omega

/-- Witness for C1 at a concrete 3 × 3 image with kernel_size 3. -/
theorem boxblur_refines_bruteforce_instance :
    (boxBlurProcess tImgA 3).height = tImgA.height ∧
    (boxBlurProcess tImgA 3).width = tImgA.width ∧
    (boxBlurProcess tImgA 3).channels = tImgA.channels ∧
    (boxBlurProcess tImgA 3).CloseTo (boxBlurBrute tImgA 3) 1 :=
  boxblur_refines_bruteforce tImgA 3 (by decide) (by decide) (by decide)

/-- C2: For every raster buffer and every even kernel_size,
`BoxBlurStep.process` silently increments the size by 1 and returns
exactly the same output as for the next odd size; the function raises no
error (it is total). -/
theorem boxblur_even_coercion (img : Img) (k : ℕ) (he : k % 2 = 0) :
    boxBlurProcess img k = boxBlurProcess img (k + 1) := by
  unfold boxBlurProcess oddify
  rw [if_pos he, if_neg (by omega)]

/-- Witness for C2: kernel_size 4 behaves identically to kernel_size 5
on a concrete image. -/
theorem boxblur_even_coercion_instance :
    boxBlurProcess tImgA 4 = boxBlurProcess tImgA 5 :=
  boxblur_even_coercion tImgA 4 rfl

/-- C9: For every uniform-color image (all pixels equal within each
channel) and every odd kernel_size in [3, 31], `BoxBlurStep.process`
returns an image exactly equal to the input. -/
theorem boxblur_uniform_exact (img : Img) (k : ℕ)
    (hu : ∀ y < img.height, ∀ x < img.width, ∀ ch < img.channels,
      img.pix y x ch = img.pix 0 0 ch)
    (hv : img.Valid) (hodd : k % 2 = 1) (h3 : 3 ≤ k) (_h31 : k ≤ 31) :
    (boxBlurProcess img k).PixEq img := by
  have hok : oddify k = k := by unfold oddify; rw [if_neg (by omega)]
  unfold Img.PixEq
  refine ⟨rfl, rfl, rfl, ?_⟩
  intro y hy x hx ch hch
  have hy2 : y < img.height := hy
  have hx2 : x < img.width := hx
  have hch2 : ch < img.channels := hch
  have hpix : (boxBlurProcess img k).pix y x ch
      = min 255 (windowSum img k ch y x / (k * k)) := by
    show (boxBlurCore img (oddify k)).pix y x ch = _
    rw [hok]
    exact boxBlurCore_pix img k y x ch
  have hwin : windowSum img k ch y x = k * k * img.pix 0 0 ch := by
    unfold windowSum
    have hterm : ∀ dy dx : ℕ,
        img.paddedPix (k / 2) ch (y + dy) (x + dx) = img.pix 0 0 ch := by
      intro dy dx
      unfold Img.paddedPix
      exact hu _ (lt_of_le_of_lt (min_le_left _ _) (by omega))
        _ (lt_of_le_of_lt (min_le_left _ _) (by omega)) _ hch2
    calc ∑ dy ∈ Finset.range k, ∑ dx ∈ Finset.range k,
          img.paddedPix (k / 2) ch (y + dy) (x + dx)
        = ∑ _dy ∈ Finset.range k, ∑ _dx ∈ Finset.range k, img.pix 0 0 ch :=
          Finset.sum_congr rfl fun dy _ =>
            Finset.sum_congr rfl fun dx _ => hterm dy dx
      _ = k * k * img.pix 0 0 ch := by
          simp [Finset.sum_const, Finset.card_range]
          ring
  have hdiv : k * k * img.pix 0 0 ch / (k * k) = img.pix 0 0 ch :=
    Nat.mul_div_cancel_left _ (by positivity)
  have hvle : img.pix 0 0 ch ≤ 255 := hv 0 (by omega) 0 (by omega) ch hch2
  rw [hpix, hwin, hdiv, min_eq_right hvle]
  exact (hu y hy2 x hx2 ch hch2).symm

/-- Witness for C9 at a concrete per-channel-uniform 4 × 5 × 3 image with
kernel_size 5. -/
theorem boxblur_uniform_exact_instance :
    (boxBlurProcess tImgU 5).PixEq tImgU :=
  boxblur_uniform_exact tImgU 5 (by decide) (by decide) rfl (by decide) (by decide)

/-- Clamping and truncating an 8-bit value is the identity. -/
theorem clamp255_natCast {p : ℕ} (hp : p ≤ 255) : clamp255 (p : ℚ) = p := by
  unfold clamp255
  rw [max_eq_right (by positivity), min_eq_right (by exact_mod_cast hp)]
  rw [Int.floor_natCast]
  exact Int.toNat_natCast p

/-- C7: For every image, `UnsharpMaskStep.process` returns
`clamp(image + strength × (image − BoxBlur(image, blur_size)), 0, 255)`
with the difference computed in a signed higher-precision
representation, and with `strength = 0` the output equals the input. -/
theorem unsharp_formula_and_identity (img : Img) (s : ℚ) (b : ℕ) (hv : img.Valid) :
    (unsharpProcess img s b).PixEq (unsharpSpecFormula img s b) ∧
      (unsharpProcess img 0 b).PixEq img := by
  constructor
  · exact ⟨rfl, rfl, rfl, fun y _ x _ ch _ => rfl⟩
  · refine ⟨rfl, rfl, rfl, ?_⟩
    intro y hy x hx ch hch
    show clamp255 ((img.pix y x ch : ℚ)
      + 0 * ((img.pix y x ch : ℚ) - ((boxBlurProcess img b).pix y x ch : ℚ)))
      = img.pix y x ch
    rw [zero_mul, add_zero]
    exact clamp255_natCast (hv y hy x hx ch hch)

/-- Witness for C7 at a concrete image with strength 1 and blur_size 3. -/
theorem unsharp_formula_and_identity_instance :
    (unsharpProcess tImgA 1 3).PixEq (unsharpSpecFormula tImgA 1 3) ∧
      (unsharpProcess tImgA 0 3).PixEq tImgA :=
  unsharp_formula_and_identity tImgA 1 3 (by decide)

/-- Counterexample for C6 as stated (quantifying over all integer
`width`/`height`): on a 4 × 4 image, `Crop(x=0, y=0, width=4, height=-1)`
clamps `y` to 0 and computes the corner `y + height = -1`; the claimed
clamped sub-rectangle is therefore empty (0 rows), but the code performs
the Python slice `image[0:-1, 0:4]`, whose negative stop counts from the
end of the axis, and returns a 3 × 4 buffer. -/
theorem crop_negative_height_counterexample :
    (cropProcess cImg4 0 0 4 (-1)).height = 3 ∧
      ¬ (cropProcess cImg4 0 0 4 (-1)).IsSubrect cImg4 0 0 0 4 := by
  decide

/-- C6 (amended to nonnegative `width` and `height`, the domain on which
the claimed clamping description matches Python slice semantics):
`CropStep.process` clamps `x` into `[0, w-1]` and `y` into `[0, h-1]`,
clamps the opposite corner `x+width`/`y+height` to the image bounds, and
returns exactly that sub-rectangle as a new buffer. -/
theorem crop_clamps_nonneg (img : Img) (x y width height : ℤ)
    (hw : 0 ≤ width) (hh : 0 ≤ height) :
    (cropProcess img x y width height).IsSubrect img
      (max 0 (min y ((img.height : ℤ) - 1))).toNat
      (max 0 (min x ((img.width : ℤ) - 1))).toNat
      (min (max 0 (min y ((img.height : ℤ) - 1)) + height) (img.height : ℤ)
        - max 0 (min y ((img.height : ℤ) - 1))).toNat
      (min (max 0 (min x ((img.width : ℤ) - 1)) + width) (img.width : ℤ)
        - max 0 (min x ((img.width : ℤ) - 1))).toNat := by
  have hy0 : (0 : ℤ) ≤ max 0 (min y ((img.height : ℤ) - 1)) := le_max_left _ _
  have hx0 : (0 : ℤ) ≤ max 0 (min x ((img.width : ℤ) - 1)) := le_max_left _ _
  have hyh : max 0 (min y ((img.height : ℤ) - 1)) ≤ (img.height : ℤ) :=
    max_le (by positivity) (le_trans (min_le_right _ _) (by omega))
  have hxw : max 0 (min x ((img.width : ℤ) - 1)) ≤ (img.width : ℤ) :=
    max_le (by positivity) (le_trans (min_le_right _ _) (by omega))
  have hy2a : max 0 (min y ((img.height : ℤ) - 1))
      ≤ min (max 0 (min y ((img.height : ℤ) - 1)) + height) (img.height : ℤ) :=
    le_min (by omega) hyh
  have hy2b : min (max 0 (min y ((img.height : ℤ) - 1)) + height) (img.height : ℤ)
      ≤ (img.height : ℤ) := min_le_right _ _
  have hx2a : max 0 (min x ((img.width : ℤ) - 1))
      ≤ min (max 0 (min x ((img.width : ℤ) - 1)) + width) (img.width : ℤ) :=
    le_min (by omega) hxw
  have hx2b : min (max 0 (min x ((img.width : ℤ) - 1)) + width) (img.width : ℤ)
      ≤ (img.width : ℤ) := min_le_right _ _
  have hsy : sliceStop
      (min (max 0 (min y ((img.height : ℤ) - 1)) + height) (img.height : ℤ))
      img.height
      = (min (max 0 (min y ((img.height : ℤ) - 1)) + height) (img.height : ℤ)).toNat := by
    unfold sliceStop
    rw [if_neg (by omega)]
    omega
  have hsx : sliceStop
      (min (max 0 (min x ((img.width : ℤ) - 1)) + width) (img.width : ℤ))
      img.width
      = (min (max 0 (min x ((img.width : ℤ) - 1)) + width) (img.width : ℤ)).toNat := by
    unfold sliceStop
    rw [if_neg (by omega)]
    omega
  refine ⟨?_, ?_, rfl, ?_⟩
  · show sliceStop _ img.height - (max 0 (min y ((img.height : ℤ) - 1))).toNat = _
    rw [hsy]
    omega
  · show sliceStop _ img.width - (max 0 (min x ((img.width : ℤ) - 1))).toNat = _
    rw [hsx]
    omega
  · intro i _ j _ ch _
    rfl

/-- Witness for C6 (amended): `Crop(x=-5, y=-5, width=10, height=10)` on
a 100 × 100 image returns the 10 × 10 sub-rectangle starting at
coordinate (0, 0). -/
theorem crop_clamps_nonneg_instance :
    (cropProcess cImg100 (-5) (-5) 10 10).IsSubrect cImg100 0 0 10 10 :=
  crop_clamps_nonneg cImg100 (-5) (-5) 10 10 (by decide) (by decide)

/-- C8: `RotateStep.process` first normalizes the angle modulo 360; a
normalized angle of 0, 90, 180 or 270 produces the corresponding
rotation (width and height swap for 90 and 270); any other normalized
angle is rounded to the nearest multiple of 90 (within 45°) and
re-dispatched to the same operation; no angle is rejected (the function
is total). -/
theorem rotate_normalize_dispatch (img : Img) (angle : ℤ) :
    rotateProcess img angle = rotateProcess img (angle % 360) ∧
    (angle % 360 = 0 → rotateProcess img angle = img) ∧
    (angle % 360 = 90 → rotateProcess img angle = rotate90cw img) ∧
    (angle % 360 = 180 → rotateProcess img angle = rotate180 img) ∧
    (angle % 360 = 270 → rotateProcess img angle = rotate90ccw img) ∧
    (angle % 360 ≠ 0 → angle % 360 ≠ 90 → angle % 360 ≠ 180 → angle % 360 ≠ 270 →
      rotateProcess img angle
        = rotateProcess img (pyRoundHalfEvenDiv (angle % 360) 90 * 90)) ∧
    (angle % 360 % 90 ≠ 0 →
      (pyRoundHalfEvenDiv (angle % 360) 90 * 90 - angle % 360).natAbs ≤ 45) ∧
    (rotate90cw img).height = img.width ∧ (rotate90cw img).width = img.height ∧
    (rotate90ccw img).height = img.width ∧ (rotate90ccw img).width = img.height ∧
    (rotate180 img).height = img.height ∧ (rotate180 img).width = img.width := by
  refine ⟨?_, ?_, ?_, ?_, ?_, ?_, ?_, rfl, rfl, rfl, rfl, rfl, rfl⟩
  · conv_lhs => rw [rotateProcess.eq_def]
    conv_rhs => rw [rotateProcess.eq_def]
    rw [Int.emod_emod_of_dvd angle dvd_rfl]
  · intro h
    rw [rotateProcess.eq_def, dif_pos h]
  · intro h
    rw [rotateProcess.eq_def, dif_neg (by omega), dif_pos h]
  · intro h
    rw [rotateProcess.eq_def, dif_neg (by omega), dif_neg (by omega), dif_pos h]
  · intro h
    rw [rotateProcess.eq_def, dif_neg (by omega), dif_neg (by omega),
      dif_neg (by omega), dif_pos h]
  · intro h0 h90 h180 h270
    conv_lhs => rw [rotateProcess.eq_def]
    rw [dif_neg h0, dif_neg h90, dif_neg h180, dif_neg h270]
  · intro h
    unfold pyRoundHalfEvenDiv
    split_ifs <;> omega

/-- Witness for C8 at angle 135 on a concrete image: the angle is
normalized, 135 is not a multiple of 90, the call is re-dispatched at
the rounded angle, and that rounded multiple of 90 is within 45°. -/
theorem rotate_normalize_dispatch_instance :
    rotateProcess cImg4 135 = rotateProcess cImg4 ((135 : ℤ) % 360) ∧
    rotateProcess cImg4 135
      = rotateProcess cImg4 (pyRoundHalfEvenDiv ((135 : ℤ) % 360) 90 * 90) ∧
    (pyRoundHalfEvenDiv ((135 : ℤ) % 360) 90 * 90 - (135 : ℤ) % 360).natAbs ≤ 45 :=
  ⟨(rotate_normalize_dispatch cImg4 135).1,
    (rotate_normalize_dispatch cImg4 135).2.2.2.2.2.1
      (by decide) (by decide) (by decide) (by decide),
    (rotate_normalize_dispatch cImg4 135).2.2.2.2.2.2.1 (by decide)⟩

/-- Dispatch succeeds on every registered step name. -/
theorem runStep_ok_of_registered (conv : HsvConv) (img : Img) (inv : Invocation)
    (h : inv.step ∈ registeredSteps) : ∃ r, runStep conv img inv = .ok r := by
  simp [registeredSteps] at h
  rcases h with h | h | h | h | h | h | h
  · exact ⟨brightnessProcess img (inv.params.factor.getD 1), by unfold runStep; rw [h]; rfl⟩
  · exact ⟨saturationProcess conv img (inv.params.factor.getD 1), by unfold runStep; rw [h]; rfl⟩
  · exact ⟨hueProcess conv img (inv.params.shift.getD 0), by unfold runStep; rw [h]; rfl⟩
  · exact ⟨boxBlurProcess img (inv.params.kernel_size.getD 5), by unfold runStep; rw [h]; rfl⟩
  · exact ⟨unsharpProcess img (inv.params.strength.getD 1) (inv.params.blur_size.getD 5),
      by unfold runStep; rw [h]; rfl⟩
  · exact ⟨cropProcess img (inv.params.x.getD 0) (inv.params.y.getD 0)
      (inv.params.width.getD 100) (inv.params.height.getD 100),
      by unfold runStep; rw [h]; rfl⟩
  · exact ⟨rotateProcess img (inv.params.angle.getD 0), by unfold runStep; rw [h]; rfl⟩

/-- Dispatch on an unregistered step name yields the unknown-step
error. -/
theorem runStep_err_of_unregistered (conv : HsvConv) (img : Img) (inv : Invocation)
    (h : inv.step ∉ registeredSteps) :
    runStep conv img inv = .error (.unknownStep inv.step) := by
  simp [registeredSteps] at h
  obtain ⟨h1, h2, h3, h4, h5, h6, h7⟩ := h
  unfold runStep
  rw [if_neg h1, if_neg h2, if_neg h3, if_neg h4, if_neg h5, if_neg h6, if_neg h7]

/-- C3: For every image and every pipeline containing an invocation
whose step name is not one of the seven registered names,
`ImageProcessingPipeline.process_image` fails with the unknown-step
error at that invocation, applies none of the invocations after it, and
returns no partial result (the result is the bare error value,
independent of the suffix of the pipeline). -/
theorem pipeline_unknown_step_aborts (conv : HsvConv) (img : Img)
    (pre : List Invocation) (bad : Invocation) (post : List Invocation)
    (hpre : ∀ inv ∈ pre, inv.step ∈ registeredSteps)
    (hbad : bad.step ∉ registeredSteps) :
    processImage conv img (pre ++ bad :: post) = .error (.unknownStep bad.step) := by
  induction pre generalizing img with
  | nil =>
    show processImage conv img (bad :: post) = _
    unfold processImage
    rw [runStep_err_of_unregistered conv img bad hbad]
  | cons a pre ih =>
    obtain ⟨r, hr⟩ := runStep_ok_of_registered conv img a (hpre a (by simp))
    show processImage conv img (a :: (pre ++ bad :: post)) = _
    unfold processImage
    rw [hr]
    exact ih r fun inv hi => hpre inv (by simp [hi])

/-- Witness for C3: a pipeline whose second entry is the unregistered
step name "sepia" fails with the unknown-step error and never reaches
the later rotate invocation. -/
theorem pipeline_unknown_step_aborts_instance :
    processImage idConv tImgA
        [⟨"brightness", {}⟩, ⟨"sepia", {}⟩, ⟨"rotate", {}⟩]
      = .error (.unknownStep "sepia") :=
  pipeline_unknown_step_aborts idConv tImgA [⟨"brightness", {}⟩] ⟨"sepia", {}⟩
    [⟨"rotate", {}⟩] (by decide) (by decide)

/-- C10: the executor passes the caller-supplied parameter values to the
step's process function unchanged, with no check against the declared
schema bounds: every registered single-step pipeline succeeds and
returns exactly the step applied at the supplied (or default) values; in
particular brightness with the out-of-range factor 10 is applied as-is
and nothing is rejected at the executor level. -/
theorem executor_passes_params_unchecked (conv : HsvConv) (img : Img) (p : Params) :
    processImage conv img [⟨"brightness", p⟩]
      = .ok (brightnessProcess img (p.factor.getD 1)) ∧
    processImage conv img [⟨"saturation", p⟩]
      = .ok (saturationProcess conv img (p.factor.getD 1)) ∧
    processImage conv img [⟨"hue", p⟩]
      = .ok (hueProcess conv img (p.shift.getD 0)) ∧
    processImage conv img [⟨"box_blur", p⟩]
      = .ok (boxBlurProcess img (p.kernel_size.getD 5)) ∧
    processImage conv img [⟨"unsharp_mask", p⟩]
      = .ok (unsharpProcess img (p.strength.getD 1) (p.blur_size.getD 5)) ∧
    processImage conv img [⟨"crop", p⟩]
      = .ok (cropProcess img (p.x.getD 0) (p.y.getD 0)
          (p.width.getD 100) (p.height.getD 100)) ∧
    processImage conv img [⟨"rotate", p⟩]
      = .ok (rotateProcess img (p.angle.getD 0)) ∧
    processImage conv img [⟨"brightness", { factor := some 10 }⟩]
      = .ok (brightnessProcess img 10) :=
  ⟨rfl, rfl, rfl, rfl, rfl, rfl, rfl, rfl⟩

end ImageProc
